import Mathlib

/-!
Verification of the Next.js transform rule-selection engine
(`crates/next-core/src/next_shared/transforms.rs` together with the
context descriptor of `crates/next-core/src/next_shared/context.rs`).

The Rust source builds, for each build context, an ordered list of
`ModuleRule` values: each pairs a `ModuleRuleCondition` tree with a list
of `ModuleRuleEffect`s.  We embed the data model and the three rule
constructors (`get_next_pages_transforms_rule`,
`get_next_dynamic_transform_rule`, `get_next_font_transform_rule`) plus
the selector `get_next_transforms_rules` shallowly in Lean.

The filesystem collaborator (turbo-tasks-fs) is external to the slice:
path joining is passed in as an explicit fallible function
`join : FileSystemPath → String → Except ε FileSystemPath`, and the
`async`/`await?` structure of the Rust code becomes the `Except` monad,
with the joins performed in the same textual order as in the source.
-/

namespace NextTransforms

/-- A resolved filesystem path.  `turbo_tasks_fs::FileSystemPath` carries a
filesystem handle plus a normalized path string; within one filesystem (the
only case this slice exercises) it is the path string that matters, so we
model a resolved path as its normalized textual form, without a trailing
slash. -/
abbrev FileSystemPath := String

/-- Sub-types of URL references (`turbopack_core::reference_type::UrlReferenceSubType`).
Only `undefined` is consulted by this slice; one further variant stands in
for all the others so that "equals `Url Undefined`" is not vacuous. -/
inductive UrlReferenceSubType where
  | undefined
  | cssUrl
deriving DecidableEq, Repr

/-- Reference classification of a candidate module
(`turbopack_core::reference_type::ReferenceType`).  The slice only tests
against `Url(Undefined)`; the remaining variants model the other ways a
file can be reached. -/
inductive ReferenceType where
  | url (sub : UrlReferenceSubType)
  | ecmaScriptModule
  | cssImport
  | entry
deriving DecidableEq, Repr

/-- `turbopack_ecmascript::NextJsPageExportFilter`. -/
inductive NextJsPageExportFilter where
  | stripDataExports
  | stripDefaultExport
deriving DecidableEq, Repr

/-- `turbopack_ecmascript::EcmascriptInputTransform`, restricted to the
variants this slice constructs. -/
inductive EcmascriptInputTransform where
  | nextJsStripPageExports (filter : NextJsPageExportFilter)
  | nextJsDynamic (is_development : Bool) (is_server : Bool)
      (is_server_components : Bool) (pages_dir : Option FileSystemPath)
  | nextJsFont (fontLoaders : List String)
deriving DecidableEq, Repr

/-- `turbopack::module_options::ModuleRuleCondition`, restricted to the
constructors used by this slice. -/
inductive ModuleRuleCondition where
  | all (conds : List ModuleRuleCondition)
  | any (conds : List ModuleRuleCondition)
  | not (cond : ModuleRuleCondition)
  | referenceType (ty : ReferenceType)
  | resourcePathEquals (path : FileSystemPath)
  | resourcePathEndsWith (suffix : String)
  | resourcePathInExactDirectory (dir : FileSystemPath)
deriving Repr

/-- `turbopack::module_options::ModuleRuleEffect`, restricted to the one
variant this slice constructs. -/
inductive ModuleRuleEffect where
  | addEcmascriptTransforms (transforms : List EcmascriptInputTransform)
deriving DecidableEq, Repr

/-- `turbopack::module_options::ModuleRule`: a condition tree paired with
the ordered effects applied when it matches. -/
structure ModuleRule where
  condition : ModuleRuleCondition
  effects : List ModuleRuleEffect

/-- `PageSsrType` from `next_server::context` (variants as matched by
`get_next_transforms_rules`). -/
inductive PageSsrType where
  | ssr
  | ssrData
deriving DecidableEq, Repr

/-- `ServerContextType` from `next_server::context` (variants and payloads
as matched by `get_next_transforms_rules`; the `AppSSR`/`AppRSC` extra
fields are ignored by the selector, which matches them with `{ .. }`). -/
inductive ServerContextType where
  | pages (pages_dir : FileSystemPath) (ssr_type : PageSsrType)
  | appSSR (app_dir : FileSystemPath)
  | appRSC (app_dir : FileSystemPath)
deriving DecidableEq, Repr

/-- `ClientContextType` from `next_client::context` (variants and payloads
as matched by `get_next_transforms_rules`). -/
inductive ClientContextType where
  | pages (pages_dir : FileSystemPath)
  | app (app_dir : FileSystemPath)
  | fallback
  | other
deriving DecidableEq, Repr

/-- `SharedContextType` from `next_shared::context`. -/
inductive SharedContextType where
  | server (ty : ServerContextType)
  | client (ty : ClientContextType)
deriving DecidableEq, Repr

/-- The filesystem collaborator: joining a base path with a textual suffix
either yields a resolved path or fails.  This is the seam at which the Rust
code performs `pages_dir.join(suffix).await?`. -/
abbrev JoinFn (ε : Type) := FileSystemPath → String → Except ε FileSystemPath

/-- Embedding of `get_next_pages_transforms_rule`.  The five joins are
performed in the textual order of the Rust source (`"api"`, then the four
`_document.*` names); the first failure aborts the construction. -/
def get_next_pages_transforms_rule {ε : Type} (join : JoinFn ε)
    (pages_dir : FileSystemPath) (export_filter : NextJsPageExportFilter) :
    Except ε ModuleRule := do
  let strip_transform := EcmascriptInputTransform.nextJsStripPageExports export_filter
  let apiDir ← join pages_dir "api"
  let documentJs ← join pages_dir "_document.js"
  let documentJsx ← join pages_dir "_document.jsx"
  let documentTs ← join pages_dir "_document.ts"
  let documentTsx ← join pages_dir "_document.tsx"
  pure
    { condition := .all [
        .all [
          .resourcePathInExactDirectory pages_dir,
          .not (.resourcePathInExactDirectory apiDir),
          .not (.any [
            .resourcePathEquals documentJs,
            .resourcePathEquals documentJsx,
            .resourcePathEquals documentTs,
            .resourcePathEquals documentTsx])],
        .any [
          .resourcePathEndsWith ".js",
          .resourcePathEndsWith ".jsx",
          .resourcePathEndsWith ".ts",
          .resourcePathEndsWith ".tsx"]],
      effects := [.addEcmascriptTransforms [strip_transform]] }

/-- Embedding of `get_next_dynamic_transform_rule`. -/
def get_next_dynamic_transform_rule (is_development : Bool) (is_server : Bool)
    (is_server_components : Bool) (pages_dir : Option FileSystemPath) : ModuleRule :=
  let dynamic_transform := EcmascriptInputTransform.nextJsDynamic
    is_development is_server is_server_components pages_dir
  { condition := .all [
      .not (.referenceType (.url .undefined)),
      .any [
        .resourcePathEndsWith ".js",
        .resourcePathEndsWith ".jsx",
        .resourcePathEndsWith ".ts",
        .resourcePathEndsWith ".tsx"]],
    effects := [.addEcmascriptTransforms [dynamic_transform]] }

/-- Embedding of `get_next_font_transform_rule` with the `next-font-local`
feature disabled, so the loader list is the fixed singleton. -/
def get_next_font_transform_rule : ModuleRule :=
  let font_loaders := ["@next/font/google"]
  { condition := .all [
      .not (.referenceType (.url .undefined)),
      .any [
        .resourcePathEndsWith ".js",
        .resourcePathEndsWith ".jsx",
        .resourcePathEndsWith ".ts",
        .resourcePathEndsWith ".tsx"]],
    effects := [.addEcmascriptTransforms [.nextJsFont font_loaders]] }

/-- Embedding of `get_next_transforms_rules`: the selector from a build
context to the ordered rule list, pushing rules in the order of the Rust
`match` arms. -/
def get_next_transforms_rules {ε : Type} (join : JoinFn ε)
    (context_ty : SharedContextType) : Except ε (List ModuleRule) := do
  match context_ty with
  | .server (.pages pages_dir ssr_type) =>
    let dynamicRule := get_next_dynamic_transform_rule true true false (some pages_dir)
    match ssr_type with
    | .ssr => pure [dynamicRule]
    | .ssrData => do
      let stripRule ← get_next_pages_transforms_rule join pages_dir .stripDefaultExport
      pure [dynamicRule, stripRule]
  | .server (.appSSR _) =>
    pure [get_next_dynamic_transform_rule true true false none]
  | .server (.appRSC _) =>
    pure [get_next_dynamic_transform_rule true true true none]
  | .client (.pages pages_dir) => do
    let stripRule ← get_next_pages_transforms_rule join pages_dir .stripDataExports
    pure [get_next_font_transform_rule, stripRule,
      get_next_dynamic_transform_rule true false false (some pages_dir)]
  | .client (.app _) | .client .fallback | .client .other =>
    pure [get_next_font_transform_rule,
      get_next_dynamic_transform_rule true false false none]

/-- Modelled from the spec: the `ResourceFact` of §3 — the facts known about
a candidate file at evaluation time (its normalized path and its reference
classification).  The evaluation of conditions against candidates happens in
`turbopack::module_options`, outside this slice. -/
structure ResourceFact where
  path : FileSystemPath
  reference : ReferenceType
deriving DecidableEq, Repr

/-- Modelled from the spec: the `PathWithinDirectory(dir)` predicate of §4.1
(the evaluation of `ModuleRuleCondition::ResourcePathInExactDirectory` lives
in `turbopack::module_options`, outside this slice): true iff the candidate
path is `dir` itself or nested anywhere beneath it. -/
def pathWithinDirectory (dir path : FileSystemPath) : Bool :=
  path == dir || decide (dir.data ++ [ '/' ] <+: path.data)

/-- Modelled from the spec: the condition-tree evaluator of §4.2 (the
`matches` implementation lives in `turbopack::module_options`, outside this
slice).  `All` is the conjunction of its children, `Any` the disjunction,
`Not` inverts; leaves are the pure path/reference predicates of §4.1. -/
def conditionMatches : ModuleRuleCondition → ResourceFact → Bool
  | .all conds, fact => condListAll conds fact
  | .any conds, fact => condListAny conds fact
  | .not cond, fact => !(conditionMatches cond fact)
  | .referenceType ty, fact => decide (fact.reference = ty)
  | .resourcePathEquals p, fact => decide (fact.path = p)
  | .resourcePathEndsWith suffix, fact => decide (suffix.data <:+ fact.path.data)
  | .resourcePathInExactDirectory dir, fact => pathWithinDirectory dir fact.path
where
  /-- Conjunction over a list of children, left to right. -/
  condListAll : List ModuleRuleCondition → ResourceFact → Bool
    | [], _ => true
    | cond :: conds, fact => conditionMatches cond fact && condListAll conds fact
  /-- Disjunction over a list of children, left to right. -/
  condListAny : List ModuleRuleCondition → ResourceFact → Bool
    | [], _ => false
    | cond :: conds, fact => conditionMatches cond fact || condListAny conds fact

/-- The derived sub-path joins that `get_next_transforms_rules` requests
from the filesystem collaborator for a given context: the contexts that
build a page-export-strip rule join the page root with `"api"` and the four
`_document.*` names (in this order); the others request no joins. -/
def derivedJoins : SharedContextType → List (FileSystemPath × String)
  | .server (.pages pages_dir .ssrData) =>
      [(pages_dir, "api"), (pages_dir, "_document.js"), (pages_dir, "_document.jsx"),
        (pages_dir, "_document.ts"), (pages_dir, "_document.tsx")]
  | .client (.pages pages_dir) =>
      [(pages_dir, "api"), (pages_dir, "_document.js"), (pages_dir, "_document.jsx"),
        (pages_dir, "_document.ts"), (pages_dir, "_document.tsx")]
  | _ => []

/-- Whether a rule carries a `NextJsDynamic` transform among its effects
(the marker of the dynamic-import rule). -/
def hasDynamicTransform (rule : ModuleRule) : Bool :=
  rule.effects.any fun
    | .addEcmascriptTransforms transforms =>
        transforms.any fun
          | .nextJsDynamic .. => true
          | _ => false

/-- The rule-list length each context row of the decision table produces. -/
def expectedRuleCount : SharedContextType → Nat
  | .server (.pages _ .ssr) => 1
  | .server (.pages _ .ssrData) => 2
  | .server (.appSSR _) => 1
  | .server (.appRSC _) => 1
  | .client (.pages _) => 3
  | .client (.app _) | .client .fallback | .client .other => 2

/-- The condition tree the spec prescribes for the page-export-strip rule
(§4.3), parameterized by the resolved page root and the five derived paths. -/
def pagesStripCondition (pages_dir api documentJs documentJsx documentTs
    documentTsx : FileSystemPath) : ModuleRuleCondition :=
  .all [
    .all [
      .resourcePathInExactDirectory pages_dir,
      .not (.resourcePathInExactDirectory api),
      .not (.any [
        .resourcePathEquals documentJs,
        .resourcePathEquals documentJsx,
        .resourcePathEquals documentTs,
        .resourcePathEquals documentTsx])],
    .any [
      .resourcePathEndsWith ".js",
      .resourcePathEndsWith ".jsx",
      .resourcePathEndsWith ".ts",
      .resourcePathEndsWith ".tsx"]]

/-- The full page-export-strip rule with its single strip effect. -/
def pagesStripRule (pages_dir api documentJs documentJsx documentTs
    documentTsx : FileSystemPath) (export_filter : NextJsPageExportFilter) : ModuleRule :=
  { condition := pagesStripCondition pages_dir api documentJs documentJsx documentTs documentTsx,
    effects := [.addEcmascriptTransforms [.nextJsStripPageExports export_filter]] }

theorem pages_rule_of_joins {ε : Type} (join : JoinFn ε) (pages_dir : FileSystemPath)
    (export_filter : NextJsPageExportFilter)
    (api documentJs documentJsx documentTs documentTsx : FileSystemPath)
    (h1 : join pages_dir "api" = .ok api)
    (h2 : join pages_dir "_document.js" = .ok documentJs)
    (h3 : join pages_dir "_document.jsx" = .ok documentJsx)
    (h4 : join pages_dir "_document.ts" = .ok documentTs)
    (h5 : join pages_dir "_document.tsx" = .ok documentTsx) :
    get_next_pages_transforms_rule join pages_dir export_filter =
      .ok (pagesStripRule pages_dir api documentJs documentJsx documentTs
        documentTsx export_filter) := by
  simp [get_next_pages_transforms_rule, h1, h2, h3, h4, h5, pagesStripRule, Pure.pure, Except.pure,
    pagesStripCondition, Bind.bind, Except.bind]

theorem pages_rule_ok_inv {ε : Type} (join : JoinFn ε) (pages_dir : FileSystemPath)
    (export_filter : NextJsPageExportFilter) (rule : ModuleRule)
    (h : get_next_pages_transforms_rule join pages_dir export_filter = .ok rule) :
    ∃ api documentJs documentJsx documentTs documentTsx,
      join pages_dir "api" = .ok api ∧
      join pages_dir "_document.js" = .ok documentJs ∧
      join pages_dir "_document.jsx" = .ok documentJsx ∧
      join pages_dir "_document.ts" = .ok documentTs ∧
      join pages_dir "_document.tsx" = .ok documentTsx ∧
      rule = pagesStripRule pages_dir api documentJs documentJsx documentTs
        documentTsx export_filter := by
  rcases h1 : join pages_dir "api" with e | api <;>
    rcases h2 : join pages_dir "_document.js" with e | documentJs <;>
      rcases h3 : join pages_dir "_document.jsx" with e | documentJsx <;>
        rcases h4 : join pages_dir "_document.ts" with e | documentTs <;>
          rcases h5 : join pages_dir "_document.tsx" with e | documentTsx <;>
            simp_all [get_next_pages_transforms_rule, Bind.bind, Except.bind, Pure.pure, Except.pure,
              pagesStripRule, pagesStripCondition]

theorem pages_rule_error_inv {ε : Type} (join : JoinFn ε) (pages_dir : FileSystemPath)
    (export_filter : NextJsPageExportFilter) (e : ε)
    (h : get_next_pages_transforms_rule join pages_dir export_filter = .error e) :
    join pages_dir "api" = .error e ∨ join pages_dir "_document.js" = .error e ∨
      join pages_dir "_document.jsx" = .error e ∨ join pages_dir "_document.ts" = .error e ∨
        join pages_dir "_document.tsx" = .error e := by
  rcases h1 : join pages_dir "api" with f | api <;>
    rcases h2 : join pages_dir "_document.js" with f | documentJs <;>
      rcases h3 : join pages_dir "_document.jsx" with f | documentJsx <;>
        rcases h4 : join pages_dir "_document.ts" with f | documentTs <;>
          rcases h5 : join pages_dir "_document.tsx" with f | documentTsx <;>
            simp_all [get_next_pages_transforms_rule, Bind.bind, Except.bind, Pure.pure, Except.pure]

theorem pages_rule_isOk_iff {ε : Type} (join : JoinFn ε) (pages_dir : FileSystemPath)
    (export_filter : NextJsPageExportFilter) :
    (get_next_pages_transforms_rule join pages_dir export_filter).isOk = true ↔
      ((join pages_dir "api").isOk = true ∧ (join pages_dir "_document.js").isOk = true ∧
        (join pages_dir "_document.jsx").isOk = true ∧
        (join pages_dir "_document.ts").isOk = true ∧
        (join pages_dir "_document.tsx").isOk = true) := by
  rcases h1 : join pages_dir "api" with f | api <;>
    rcases h2 : join pages_dir "_document.js" with f | documentJs <;>
      rcases h3 : join pages_dir "_document.jsx" with f | documentJsx <;>
        rcases h4 : join pages_dir "_document.ts" with f | documentTs <;>
          rcases h5 : join pages_dir "_document.tsx" with f | documentTsx <;>
            simp_all [get_next_pages_transforms_rule, Bind.bind, Except.bind, Pure.pure, Except.pure, Except.isOk,
              Except.toBool]

/-- A concrete, always-succeeding filesystem collaborator used to witness
the theorems on concrete inputs: joining appends the suffix after a slash. -/
def okJoin : JoinFn String := fun base suffix => .ok (base ++ "/" ++ suffix)

/-- Claim C1: for the Client/PagesRender context, `get_next_transforms_rules`
returns exactly three rules in the order font-loader, then page-export-strip
with filter `StripDataExports` on the given page root, then dynamic-import
with `is_development = true`, `is_server = false`, `is_server_components =
false`, `pages_dir = some page_root`; the list is never reordered. -/
theorem client_pages_rule_order {ε : Type} (join : JoinFn ε) (pages_dir : FileSystemPath)
    (stripRule : ModuleRule)
    (h : get_next_pages_transforms_rule join pages_dir .stripDataExports = .ok stripRule) :
    get_next_transforms_rules join (.client (.pages pages_dir)) =
      .ok [get_next_font_transform_rule, stripRule,
        get_next_dynamic_transform_rule true false false (some pages_dir)] := by
  simp [get_next_transforms_rules, h, Bind.bind, Except.bind, Pure.pure, Except.pure]

/-- Witness for C1 at `page_root = "pages"` with a concrete collaborator. -/
theorem client_pages_rule_order_witness :
    get_next_transforms_rules okJoin (.client (.pages "pages")) =
      .ok [get_next_font_transform_rule,
        pagesStripRule "pages" "pages/api" "pages/_document.js" "pages/_document.jsx"
          "pages/_document.ts" "pages/_document.tsx" .stripDataExports,
        get_next_dynamic_transform_rule true false false (some "pages")] :=
  client_pages_rule_order okJoin "pages"
    (pagesStripRule "pages" "pages/api" "pages/_document.js" "pages/_document.jsx"
      "pages/_document.ts" "pages/_document.tsx" .stripDataExports) rfl

/-- Claim C3: for the Server/PagesRender context, `get_next_transforms_rules`
returns, with `ssr_type = SsrData`, exactly the dynamic-import rule
(`is_development = true`, `is_server = true`, `is_server_components = false`,
`pages_dir = some page_root`) followed by the page-export-strip rule with
filter `StripDefaultExport`; with `ssr_type = Ssr`, only the dynamic-import
rule. -/
theorem server_pages_rule_order {ε : Type} (join : JoinFn ε) (pages_dir : FileSystemPath)
    (stripRule : ModuleRule)
    (h : get_next_pages_transforms_rule join pages_dir .stripDefaultExport = .ok stripRule) :
    get_next_transforms_rules join (.server (.pages pages_dir .ssrData)) =
      .ok [get_next_dynamic_transform_rule true true false (some pages_dir), stripRule] ∧
    get_next_transforms_rules join (.server (.pages pages_dir .ssr)) =
      .ok [get_next_dynamic_transform_rule true true false (some pages_dir)] := by
  constructor
  · simp [get_next_transforms_rules, h, Bind.bind, Except.bind, Pure.pure, Except.pure]
  · rfl

/-- Witness for C3 at `page_root = "pages"` with a concrete collaborator. -/
theorem server_pages_rule_order_witness :
    get_next_transforms_rules okJoin (.server (.pages "pages" .ssrData)) =
      .ok [get_next_dynamic_transform_rule true true false (some "pages"),
        pagesStripRule "pages" "pages/api" "pages/_document.js" "pages/_document.jsx"
          "pages/_document.ts" "pages/_document.tsx" .stripDefaultExport] ∧
    get_next_transforms_rules okJoin (.server (.pages "pages" .ssr)) =
      .ok [get_next_dynamic_transform_rule true true false (some "pages")] :=
  server_pages_rule_order okJoin "pages"
    (pagesStripRule "pages" "pages/api" "pages/_document.js" "pages/_document.jsx"
      "pages/_document.ts" "pages/_document.tsx" .stripDefaultExport) rfl

/-- Claim C4: whenever the five derived sub-path joins succeed, the
page-export-strip rule is built and its condition tree is exactly
`All[ All[ PathWithinDirectory(page_root), Not(PathWithinDirectory(page_root/api)),
Not(Any[PathEquals(page_root/_document.js), PathEquals(page_root/_document.jsx),
PathEquals(page_root/_document.ts), PathEquals(page_root/_document.tsx)]) ],
Any[PathEndsWith(.js), PathEndsWith(.jsx), PathEndsWith(.ts), PathEndsWith(.tsx)] ]`. -/
theorem pages_strip_condition_tree {ε : Type} (join : JoinFn ε) (pages_dir : FileSystemPath)
    (export_filter : NextJsPageExportFilter)
    (api documentJs documentJsx documentTs documentTsx : FileSystemPath)
    (h1 : join pages_dir "api" = .ok api)
    (h2 : join pages_dir "_document.js" = .ok documentJs)
    (h3 : join pages_dir "_document.jsx" = .ok documentJsx)
    (h4 : join pages_dir "_document.ts" = .ok documentTs)
    (h5 : join pages_dir "_document.tsx" = .ok documentTsx) :
    ∃ rule, get_next_pages_transforms_rule join pages_dir export_filter = .ok rule ∧
      rule.condition = ModuleRuleCondition.all [
        .all [
          .resourcePathInExactDirectory pages_dir,
          .not (.resourcePathInExactDirectory api),
          .not (.any [
            .resourcePathEquals documentJs,
            .resourcePathEquals documentJsx,
            .resourcePathEquals documentTs,
            .resourcePathEquals documentTsx])],
        .any [
          .resourcePathEndsWith ".js",
          .resourcePathEndsWith ".jsx",
          .resourcePathEndsWith ".ts",
          .resourcePathEndsWith ".tsx"]] := by
  refine ⟨pagesStripRule pages_dir api documentJs documentJsx documentTs documentTsx
    export_filter, ?_, rfl⟩
  exact pages_rule_of_joins join pages_dir export_filter api documentJs documentJsx
    documentTs documentTsx h1 h2 h3 h4 h5

/-- Witness for C4 at `page_root = "pages"` with a concrete collaborator. -/
theorem pages_strip_condition_tree_witness :
    ∃ rule, get_next_pages_transforms_rule okJoin "pages" .stripDataExports = .ok rule ∧
      rule.condition = ModuleRuleCondition.all [
        .all [
          .resourcePathInExactDirectory "pages",
          .not (.resourcePathInExactDirectory "pages/api"),
          .not (.any [
            .resourcePathEquals "pages/_document.js",
            .resourcePathEquals "pages/_document.jsx",
            .resourcePathEquals "pages/_document.ts",
            .resourcePathEquals "pages/_document.tsx"])],
        .any [
          .resourcePathEndsWith ".js",
          .resourcePathEndsWith ".jsx",
          .resourcePathEndsWith ".ts",
          .resourcePathEndsWith ".tsx"]] :=
  pages_strip_condition_tree okJoin "pages" .stripDataExports "pages/api"
    "pages/_document.js" "pages/_document.jsx" "pages/_document.ts" "pages/_document.tsx"
    rfl rfl rfl rfl rfl

theorem data_append_slash (dir rest : String) :
    (dir ++ "/" ++ rest).data = dir.data ++ [ '/' ] ++ rest.data := by
  simp [String.data_append]

/-- Claim C2: the `PathWithinDirectory(dir)` predicate used by the
page-export-strip condition holds for a candidate exactly when the
candidate's path is `dir` itself or nested anywhere beneath `dir` (there is
a — possibly multi-segment — remainder after `dir` and a slash), not only
for immediate children of `dir`. -/
theorem path_within_directory_iff (dir : FileSystemPath) (fact : ResourceFact) :
    conditionMatches (.resourcePathInExactDirectory dir) fact = true ↔
      fact.path = dir ∨ ∃ rest : String, fact.path = dir ++ "/" ++ rest := by
  simp only [conditionMatches, pathWithinDirectory, Bool.or_eq_true, beq_iff_eq,
    decide_eq_true_eq]
  constructor
  · rintro (h | ⟨t, ht⟩)
    · exact .inl h
    · refine .inr ⟨String.mk t, String.ext ?_⟩
      rw [data_append_slash, ← ht]
  · rintro (h | ⟨rest, hrest⟩)
    · exact .inl h
    · refine .inr ⟨rest.data, ?_⟩
      rw [hrest, data_append_slash]

/-- Claim C5: a candidate whose reference classification is the URL
reference of undefined sub-type never satisfies the dynamic-import
condition nor the font-loader condition, whatever its path. -/
theorem url_reference_excluded (is_development is_server is_server_components : Bool)
    (pages_dir : Option FileSystemPath) (fact : ResourceFact)
    (h : fact.reference = .url .undefined) :
    conditionMatches (get_next_dynamic_transform_rule is_development is_server
        is_server_components pages_dir).condition fact = false ∧
    conditionMatches get_next_font_transform_rule.condition fact = false := by
  constructor <;>
    simp [get_next_dynamic_transform_rule, get_next_font_transform_rule,
      conditionMatches, conditionMatches.condListAll, conditionMatches.condListAny, h]

/-- Witness for C5 at a URL-referenced candidate whose path ends in `.ts`. -/
theorem url_reference_excluded_witness :
    conditionMatches (get_next_dynamic_transform_rule true false false
        (some "pages")).condition ⟨"pages/a.ts", .url .undefined⟩ = false ∧
    conditionMatches get_next_font_transform_rule.condition
      ⟨"pages/a.ts", .url .undefined⟩ = false :=
  url_reference_excluded true false false (some "pages") ⟨"pages/a.ts", .url .undefined⟩ rfl

/-- A concrete, always-failing filesystem collaborator, used to witness the
failure-propagation theorem. -/
def failJoin : JoinFn String := fun _ _ => .error "resolution failure"

/-- Claim C6: the selector fails exactly when the filesystem collaborator
fails one of the derived sub-path joins the context requires (joining the
page root with `api` or one of the four `_document.*` names); on failure
the collaborator's error is returned as the error of the whole call (no
partial list exists, by the `Except` result type), and a context deriving
no sub-paths cannot fail. -/
theorem select_rules_failure_iff {ε : Type} (join : JoinFn ε)
    (context_ty : SharedContextType) :
    ((get_next_transforms_rules join context_ty).isOk = true ↔
      ∀ pr ∈ derivedJoins context_ty, (join pr.1 pr.2).isOk = true) ∧
    (∀ e, get_next_transforms_rules join context_ty = .error e →
      ∃ pr ∈ derivedJoins context_ty, join pr.1 pr.2 = .error e) := by
  cases context_ty with
  | server sty =>
    cases sty with
    | pages pages_dir ssr_type =>
      cases ssr_type with
      | ssr =>
        refine ⟨by simp [get_next_transforms_rules, derivedJoins, Pure.pure, Except.pure,
          Except.isOk, Except.toBool], fun e he => ?_⟩
        simp [get_next_transforms_rules, Pure.pure, Except.pure] at he
      | ssrData =>
        rcases h1 : join pages_dir "api" with f | api <;>
          rcases h2 : join pages_dir "_document.js" with f | documentJs <;>
            rcases h3 : join pages_dir "_document.jsx" with f | documentJsx <;>
              rcases h4 : join pages_dir "_document.ts" with f | documentTs <;>
                rcases h5 : join pages_dir "_document.tsx" with f | documentTsx <;>
                  simp_all [get_next_transforms_rules, get_next_pages_transforms_rule,
                    derivedJoins, Bind.bind, Except.bind, Pure.pure, Except.pure,
                    Except.isOk, Except.toBool]
    | appSSR app_dir =>
      refine ⟨by simp [get_next_transforms_rules, derivedJoins, Pure.pure, Except.pure,
        Except.isOk, Except.toBool], fun e he => ?_⟩
      simp [get_next_transforms_rules, Pure.pure, Except.pure] at he
    | appRSC app_dir =>
      refine ⟨by simp [get_next_transforms_rules, derivedJoins, Pure.pure, Except.pure,
        Except.isOk, Except.toBool], fun e he => ?_⟩
      simp [get_next_transforms_rules, Pure.pure, Except.pure] at he
  | client cty =>
    cases cty with
    | pages pages_dir =>
      rcases h1 : join pages_dir "api" with f | api <;>
        rcases h2 : join pages_dir "_document.js" with f | documentJs <;>
          rcases h3 : join pages_dir "_document.jsx" with f | documentJsx <;>
            rcases h4 : join pages_dir "_document.ts" with f | documentTs <;>
              rcases h5 : join pages_dir "_document.tsx" with f | documentTsx <;>
                simp_all [get_next_transforms_rules, get_next_pages_transforms_rule,
                  derivedJoins, Bind.bind, Except.bind, Pure.pure, Except.pure,
                  Except.isOk, Except.toBool]
    | app app_dir =>
      refine ⟨by simp [get_next_transforms_rules, derivedJoins, Pure.pure, Except.pure,
        Except.isOk, Except.toBool], fun e he => ?_⟩
      simp [get_next_transforms_rules, Pure.pure, Except.pure] at he
    | fallback =>
      refine ⟨by simp [get_next_transforms_rules, derivedJoins, Pure.pure, Except.pure,
        Except.isOk, Except.toBool], fun e he => ?_⟩
      simp [get_next_transforms_rules, Pure.pure, Except.pure] at he
    | other =>
      refine ⟨by simp [get_next_transforms_rules, derivedJoins, Pure.pure, Except.pure,
        Except.isOk, Except.toBool], fun e he => ?_⟩
      simp [get_next_transforms_rules, Pure.pure, Except.pure] at he

/-- Witness for C6: with a collaborator failing every join, the
Client/PagesRender call reports a failing derived join. -/
theorem select_rules_failure_iff_witness :
    ∃ pr ∈ derivedJoins (.client (.pages "pages")),
      failJoin pr.1 pr.2 = Except.error "resolution failure" :=
  (select_rules_failure_iff failJoin (.client (.pages "pages"))).2 "resolution failure" rfl

theorem pages_rule_congr {ε : Type} (join1 join2 : JoinFn ε)
    (pages_dir : FileSystemPath) (export_filter : NextJsPageExportFilter)
    (h1 : join1 pages_dir "api" = join2 pages_dir "api")
    (h2 : join1 pages_dir "_document.js" = join2 pages_dir "_document.js")
    (h3 : join1 pages_dir "_document.jsx" = join2 pages_dir "_document.jsx")
    (h4 : join1 pages_dir "_document.ts" = join2 pages_dir "_document.ts")
    (h5 : join1 pages_dir "_document.tsx" = join2 pages_dir "_document.tsx") :
    get_next_pages_transforms_rule join1 pages_dir export_filter =
      get_next_pages_transforms_rule join2 pages_dir export_filter := by
  simp only [get_next_pages_transforms_rule]
  rw [h1, h2, h3, h4, h5]

/-- Claim C7: the selector is deterministic — two invocations on the same
context whose collaborators answer the context's derived-path joins
identically (they may differ on every other join) return the same ordered
rule list. -/
theorem select_rules_deterministic {ε : Type} (join1 join2 : JoinFn ε)
    (context_ty : SharedContextType)
    (h : ∀ pr ∈ derivedJoins context_ty, join1 pr.1 pr.2 = join2 pr.1 pr.2) :
    get_next_transforms_rules join1 context_ty =
      get_next_transforms_rules join2 context_ty := by
  cases context_ty with
  | server sty =>
    cases sty with
    | pages pages_dir ssr_type =>
      cases ssr_type with
      | ssr => rfl
      | ssrData =>
        have hp := pages_rule_congr join1 join2 pages_dir .stripDefaultExport
          (h (pages_dir, "api") (by simp [derivedJoins]))
          (h (pages_dir, "_document.js") (by simp [derivedJoins]))
          (h (pages_dir, "_document.jsx") (by simp [derivedJoins]))
          (h (pages_dir, "_document.ts") (by simp [derivedJoins]))
          (h (pages_dir, "_document.tsx") (by simp [derivedJoins]))
        simp only [get_next_transforms_rules, hp]
    | appSSR app_dir => rfl
    | appRSC app_dir => rfl
  | client cty =>
    cases cty with
    | pages pages_dir =>
      have hp := pages_rule_congr join1 join2 pages_dir .stripDataExports
        (h (pages_dir, "api") (by simp [derivedJoins]))
        (h (pages_dir, "_document.js") (by simp [derivedJoins]))
        (h (pages_dir, "_document.jsx") (by simp [derivedJoins]))
        (h (pages_dir, "_document.ts") (by simp [derivedJoins]))
        (h (pages_dir, "_document.tsx") (by simp [derivedJoins]))
      simp only [get_next_transforms_rules, hp]
    | app app_dir => rfl
    | fallback => rfl
    | other => rfl

/-- Witness for C7 on the Client/PagesRender context: the two collaborators
agree on the five derived joins but differ on other suffixes (the second
fails any join of `"zzz"`), and the selector still returns the same list. -/
theorem select_rules_deterministic_witness :
    get_next_transforms_rules okJoin (.client (.pages "pages")) =
      get_next_transforms_rules
        (fun base suffix =>
          if suffix = "zzz" then .error "resolution failure"
          else .ok (base ++ "/" ++ suffix))
        (.client (.pages "pages")) :=
  select_rules_deterministic okJoin
    (fun base suffix =>
      if suffix = "zzz" then .error "resolution failure"
      else .ok (base ++ "/" ++ suffix))
    (.client (.pages "pages"))
    (by
      intro pr hpr
      simp only [derivedJoins, List.mem_cons, List.not_mem_nil, or_false] at hpr
      rcases hpr with h | h | h | h | h <;> subst h <;> rfl)

/-- Claim C8: the font-loader rule's condition tree is equal to the
dynamic-import rule's condition tree — both are exactly
`All[ Not(ReferenceKindIs(UrlReferenceUndefined)), Any[PathEndsWith(.js),
PathEndsWith(.jsx), PathEndsWith(.ts), PathEndsWith(.tsx)] ]` — hence both
conditions evaluate to the same boolean on every candidate. -/
theorem font_condition_eq_dynamic_condition (is_development is_server
    is_server_components : Bool) (pages_dir : Option FileSystemPath) :
    get_next_font_transform_rule.condition =
      (get_next_dynamic_transform_rule is_development is_server is_server_components
        pages_dir).condition ∧
    get_next_font_transform_rule.condition = ModuleRuleCondition.all [
      .not (.referenceType (.url .undefined)),
      .any [.resourcePathEndsWith ".js", .resourcePathEndsWith ".jsx",
        .resourcePathEndsWith ".ts", .resourcePathEndsWith ".tsx"]] ∧
    ∀ fact : ResourceFact,
      conditionMatches get_next_font_transform_rule.condition fact =
        conditionMatches (get_next_dynamic_transform_rule is_development is_server
          is_server_components pages_dir).condition fact :=
  ⟨rfl, rfl, fun _ => rfl⟩

/-- Claim C9: a successful selector call returns a non-empty list with
exactly one dynamic-import rule, of length one for Server/PagesRender(Ssr),
Server/AppServerRender and Server/AppServerComponents, length two for
Server/PagesRender(SsrDataExport) and the payload-free client contexts, and
length three for Client/PagesRender. -/
theorem rule_list_counts {ε : Type} (join : JoinFn ε) (context_ty : SharedContextType)
    (rules : List ModuleRule)
    (h : get_next_transforms_rules join context_ty = .ok rules) :
    rules ≠ [] ∧ (rules.filter hasDynamicTransform).length = 1 ∧
      rules.length = expectedRuleCount context_ty := by
  cases context_ty with
  | server sty =>
    cases sty with
    | pages pages_dir ssr_type =>
      cases ssr_type with
      | ssr =>
        simp only [get_next_transforms_rules, Pure.pure, Except.pure, Except.ok.injEq] at h
        subst h
        exact ⟨by simp, rfl, rfl⟩
      | ssrData =>
        rcases hp : get_next_pages_transforms_rule join pages_dir .stripDefaultExport
          with f | r
        · simp [get_next_transforms_rules, hp, Bind.bind, Except.bind] at h
        · obtain ⟨api, documentJs, documentJsx, documentTs, documentTsx,
            _, _, _, _, _, hr⟩ := pages_rule_ok_inv join pages_dir .stripDefaultExport r hp
          simp only [get_next_transforms_rules, hp, Bind.bind, Except.bind, Pure.pure,
            Except.pure, Except.ok.injEq] at h
          subst h
          subst hr
          exact ⟨by simp, rfl, rfl⟩
    | appSSR app_dir =>
      simp only [get_next_transforms_rules, Pure.pure, Except.pure, Except.ok.injEq] at h
      subst h
      exact ⟨by simp, rfl, rfl⟩
    | appRSC app_dir =>
      simp only [get_next_transforms_rules, Pure.pure, Except.pure, Except.ok.injEq] at h
      subst h
      exact ⟨by simp, rfl, rfl⟩
  | client cty =>
    cases cty with
    | pages pages_dir =>
      rcases hp : get_next_pages_transforms_rule join pages_dir .stripDataExports
        with f | r
      · simp [get_next_transforms_rules, hp, Bind.bind, Except.bind] at h
      · obtain ⟨api, documentJs, documentJsx, documentTs, documentTsx,
          _, _, _, _, _, hr⟩ := pages_rule_ok_inv join pages_dir .stripDataExports r hp
        simp only [get_next_transforms_rules, hp, Bind.bind, Except.bind, Pure.pure,
          Except.pure, Except.ok.injEq] at h
        subst h
        subst hr
        exact ⟨by simp, rfl, rfl⟩
    | app app_dir =>
      simp only [get_next_transforms_rules, Pure.pure, Except.pure, Except.ok.injEq] at h
      subst h
      exact ⟨by simp, rfl, rfl⟩
    | fallback =>
      simp only [get_next_transforms_rules, Pure.pure, Except.pure, Except.ok.injEq] at h
      subst h
      exact ⟨by simp, rfl, rfl⟩
    | other =>
      simp only [get_next_transforms_rules, Pure.pure, Except.pure, Except.ok.injEq] at h
      subst h
      exact ⟨by simp, rfl, rfl⟩

/-- Witness for C9 on the Client/PagesRender context with a concrete
collaborator. -/
theorem rule_list_counts_witness :
    (∃ rules, get_next_transforms_rules okJoin (.client (.pages "pages")) = .ok rules ∧
      rules ≠ [] ∧ (rules.filter hasDynamicTransform).length = 1 ∧
        rules.length = expectedRuleCount (.client (.pages "pages"))) := by
  refine ⟨[get_next_font_transform_rule,
    pagesStripRule "pages" "pages/api" "pages/_document.js" "pages/_document.jsx"
      "pages/_document.ts" "pages/_document.tsx" .stripDataExports,
    get_next_dynamic_transform_rule true false false (some "pages")], rfl, ?_⟩
  exact rule_list_counts okJoin (.client (.pages "pages")) _ rfl

/-- Claim C10: every rule a successful selector call returns carries exactly
one effect, an `AddEcmascriptTransforms` holding exactly one transform, and
that transform is a strip-page-exports, a dynamic, or a font transform. -/
theorem rule_effects_shape {ε : Type} (join : JoinFn ε) (context_ty : SharedContextType)
    (rules : List ModuleRule)
    (h : get_next_transforms_rules join context_ty = .ok rules) :
    ∀ rule ∈ rules, ∃ t : EcmascriptInputTransform,
      rule.effects = [.addEcmascriptTransforms [t]] ∧
      ((∃ filter, t = .nextJsStripPageExports filter) ∨
        (∃ d s c pd, t = .nextJsDynamic d s c pd) ∨
        (∃ loaders, t = .nextJsFont loaders)) := by
  have hfont : ∃ t : EcmascriptInputTransform,
      get_next_font_transform_rule.effects = [.addEcmascriptTransforms [t]] ∧
      ((∃ filter, t = .nextJsStripPageExports filter) ∨
        (∃ d s c pd, t = .nextJsDynamic d s c pd) ∨
        (∃ loaders, t = .nextJsFont loaders)) :=
    ⟨.nextJsFont ["@next/font/google"], rfl, .inr (.inr ⟨_, rfl⟩)⟩
  have hdyn : ∀ (d s c : Bool) (pd : Option FileSystemPath),
      ∃ t : EcmascriptInputTransform,
        (get_next_dynamic_transform_rule d s c pd).effects =
          [.addEcmascriptTransforms [t]] ∧
        ((∃ filter, t = .nextJsStripPageExports filter) ∨
          (∃ d2 s2 c2 pd2, t = .nextJsDynamic d2 s2 c2 pd2) ∨
          (∃ loaders, t = .nextJsFont loaders)) :=
    fun d s c pd => ⟨.nextJsDynamic d s c pd, rfl, .inr (.inl ⟨d, s, c, pd, rfl⟩)⟩
  have hstrip : ∀ (pages_dir api documentJs documentJsx documentTs documentTsx :
      FileSystemPath) (filter : NextJsPageExportFilter),
      ∃ t : EcmascriptInputTransform,
        (pagesStripRule pages_dir api documentJs documentJsx documentTs documentTsx
          filter).effects = [.addEcmascriptTransforms [t]] ∧
        ((∃ filter2, t = .nextJsStripPageExports filter2) ∨
          (∃ d s c pd, t = .nextJsDynamic d s c pd) ∨
          (∃ loaders, t = .nextJsFont loaders)) :=
    fun _ _ _ _ _ _ filter => ⟨.nextJsStripPageExports filter, rfl, .inl ⟨filter, rfl⟩⟩
  cases context_ty with
  | server sty =>
    cases sty with
    | pages pages_dir ssr_type =>
      cases ssr_type with
      | ssr =>
        simp only [get_next_transforms_rules, Pure.pure, Except.pure, Except.ok.injEq] at h
        subst h
        intro rule hr
        simp only [List.mem_singleton] at hr
        subst hr
        exact hdyn true true false (some pages_dir)
      | ssrData =>
        rcases hp : get_next_pages_transforms_rule join pages_dir .stripDefaultExport
          with f | r
        · simp [get_next_transforms_rules, hp, Bind.bind, Except.bind] at h
        · obtain ⟨api, documentJs, documentJsx, documentTs, documentTsx,
            _, _, _, _, _, hr2⟩ := pages_rule_ok_inv join pages_dir .stripDefaultExport r hp
          simp only [get_next_transforms_rules, hp, Bind.bind, Except.bind, Pure.pure,
            Except.pure, Except.ok.injEq] at h
          subst h
          subst hr2
          intro rule hr
          simp only [List.mem_cons, List.mem_singleton, List.not_mem_nil, or_false] at hr
          rcases hr with hr | hr <;> subst hr
          · exact hdyn true true false (some pages_dir)
          · exact hstrip pages_dir api documentJs documentJsx documentTs documentTsx _
    | appSSR app_dir =>
      simp only [get_next_transforms_rules, Pure.pure, Except.pure, Except.ok.injEq] at h
      subst h
      intro rule hr
      simp only [List.mem_singleton] at hr
      subst hr
      exact hdyn true true false none
    | appRSC app_dir =>
      simp only [get_next_transforms_rules, Pure.pure, Except.pure, Except.ok.injEq] at h
      subst h
      intro rule hr
      simp only [List.mem_singleton] at hr
      subst hr
      exact hdyn true true true none
  | client cty =>
    cases cty with
    | pages pages_dir =>
      rcases hp : get_next_pages_transforms_rule join pages_dir .stripDataExports
        with f | r
      · simp [get_next_transforms_rules, hp, Bind.bind, Except.bind] at h
      · obtain ⟨api, documentJs, documentJsx, documentTs, documentTsx,
          _, _, _, _, _, hr2⟩ := pages_rule_ok_inv join pages_dir .stripDataExports r hp
        simp only [get_next_transforms_rules, hp, Bind.bind, Except.bind, Pure.pure,
          Except.pure, Except.ok.injEq] at h
        subst h
        subst hr2
        intro rule hr
        simp only [List.mem_cons, List.mem_singleton, List.not_mem_nil, or_false] at hr
        rcases hr with hr | hr | hr <;> subst hr
        · exact hfont
        · exact hstrip pages_dir api documentJs documentJsx documentTs documentTsx _
        · exact hdyn true false false (some pages_dir)
    | app app_dir =>
      simp only [get_next_transforms_rules, Pure.pure, Except.pure, Except.ok.injEq] at h
      subst h
      intro rule hr
      simp only [List.mem_cons, List.mem_singleton, List.not_mem_nil, or_false] at hr
      rcases hr with hr | hr <;> subst hr
      · exact hfont
      · exact hdyn true false false none
    | fallback =>
      simp only [get_next_transforms_rules, Pure.pure, Except.pure, Except.ok.injEq] at h
      subst h
      intro rule hr
      simp only [List.mem_cons, List.mem_singleton, List.not_mem_nil, or_false] at hr
      rcases hr with hr | hr <;> subst hr
      · exact hfont
      · exact hdyn true false false none
    | other =>
      simp only [get_next_transforms_rules, Pure.pure, Except.pure, Except.ok.injEq] at h
      subst h
      intro rule hr
      simp only [List.mem_cons, List.mem_singleton, List.not_mem_nil, or_false] at hr
      rcases hr with hr | hr <;> subst hr
      · exact hfont
      · exact hdyn true false false none

/-- Witness for C10 on the Server/PagesRender(SsrDataExport) context with a
concrete collaborator. -/
theorem rule_effects_shape_witness :
    ∃ t : EcmascriptInputTransform,
      (pagesStripRule "pages" "pages/api" "pages/_document.js" "pages/_document.jsx"
        "pages/_document.ts" "pages/_document.tsx" .stripDefaultExport).effects =
        [.addEcmascriptTransforms [t]] ∧
      ((∃ filter, t = .nextJsStripPageExports filter) ∨
        (∃ d s c pd, t = .nextJsDynamic d s c pd) ∨
        (∃ loaders, t = .nextJsFont loaders)) :=
  rule_effects_shape okJoin (.server (.pages "pages" .ssrData)) _ rfl
    (pagesStripRule "pages" "pages/api" "pages/_document.js" "pages/_document.jsx"
      "pages/_document.ts" "pages/_document.tsx" .stripDefaultExport)
    (by simp only [List.mem_cons, List.not_mem_nil, or_false]; right; rfl)

end NextTransforms
